import Mathlib

/-!
Shallow embedding of the Pearson Active Learn book downloader (`src/main.py`)
and proofs about its fetch/retry state machine, the sequential page walk,
and the PDF assembly step.

Durations (backoff, delays) are modelled as exact rationals; byte strings as
lists of naturals; the filesystem and network as explicit environment values
consumed by the embedded control flow.
-/

namespace BookDL

/-- `_IMAGE_EXTS` from the source: recognised image extensions of the final
resolved URL (lower-cased suffix). -/
def imageExts : List String := [".jpg", ".jpeg", ".png", ".gif", ".webp"]

/-- `MAX_CONSECUTIVE_FAILURES` from the source. -/
def maxConsecutiveFailures : Nat := 10

/-- `PDF_BATCH_SIZE` from the source. -/
def pdfBatchSize : Nat := 50

/-! ## Fetcher: `fetch_with_retry`

One call of `fetch_with_retry(client, url, tmp_path, max_retries, backoff, ua)`
is a loop over attempts `1..max_retries`.  The environment supplies, per
attempt, what the HTTP request produced. -/

/-- What one GET attempt observes.

* `resp status retryAfter finalExt body` — a complete response: its status
  code, the parsed `Retry-After` header when present, the lower-cased suffix
  of the final resolved URL, and the body bytes.
* `okMidErr written` — a 200 response whose final URL had an image extension,
  whose body stream raised a network error after `written` bytes had already
  been written to the temp file (the `open("wb")` has created/truncated it).
* `netErr` — a transport-level exception before anything was written. -/
inductive FetchEvent : Type
  | resp (status : Int) (retryAfter : Option Nat) (finalExt : String) (body : List Nat)
  | okMidErr (written : List Nat)
  | netErr
deriving DecidableEq, Repr

/-- How `fetch_with_retry` ends: `ret s` is `return (s, headers)` (with
`s = -1` for the loop-exhaustion fallthrough `return -1, {}`), `raised` is a
propagated network exception, `noEvent` marks an environment list shorter than
the attempts the loop would make (no claim constrains that case). -/
inductive FetchRes : Type
  | ret (status : Int)
  | raised
  | noEvent
deriving DecidableEq, Repr

/-- Observable result of one `fetch_with_retry` call: how it returned, the
contents at the temp path (`none` = file never created), the total requested
sleep time, and the number of GET attempts issued. -/
structure FetchOut : Type where
  res : FetchRes
  tmp : Option (List Nat)
  slept : ℚ
  attempts : Nat
deriving DecidableEq, Repr

/-- Is this status one of the transient server errors
`(500, 502, 503, 504)` retried by `fetch_with_retry`? -/
def isTransient (status : Int) : Bool :=
  status == 500 || status == 502 || status == 503 || status == 504

/-- The attempt loop of `fetch_with_retry`, one constructor branch per source
branch, in source order (429, transient 5xx, 200, fallthrough return;
exception handler).  `attempt` is the 1-based loop variable; `tmp` and `slept`
accumulate the observable effects. -/
def fetchGo (maxRetries : Nat) (backoff : ℚ) :
    List FetchEvent → Nat → Option (List Nat) → ℚ → FetchOut
  | evs, attempt, tmp, slept =>
    if attempt > maxRetries then ⟨.ret (-1), tmp, slept, attempt - 1⟩
    else
      match evs with
      | [] => ⟨.noEvent, tmp, slept, attempt - 1⟩
      | e :: rest =>
        match e with
        | .resp status retryAfter finalExt body =>
          if status == 429 then
            fetchGo maxRetries backoff rest (attempt + 1) tmp
              (slept + (retryAfter.getD 5 : Nat))
          else if isTransient status then
            if attempt == maxRetries then ⟨.ret status, tmp, slept, attempt⟩
            else
              fetchGo maxRetries backoff rest (attempt + 1) tmp
                (slept + backoff * 2 ^ (attempt - 1))
          else if status == 200 then
            if finalExt ∈ imageExts then ⟨.ret 200, some body, slept, attempt⟩
            else ⟨.ret 302, tmp, slept, attempt⟩
          else ⟨.ret status, tmp, slept, attempt⟩
        | .okMidErr written =>
          if attempt == maxRetries then ⟨.raised, some written, slept, attempt⟩
          else
            fetchGo maxRetries backoff rest (attempt + 1) (some written)
              (slept + backoff * 2 ^ (attempt - 1))
        | .netErr =>
          if attempt == maxRetries then ⟨.raised, tmp, slept, attempt⟩
          else
            fetchGo maxRetries backoff rest (attempt + 1) tmp
              (slept + backoff * 2 ^ (attempt - 1))

/-- `fetch_with_retry` itself: the loop starts at attempt 1 with no temp file
written and no sleep performed. -/
def fetchWithRetry (maxRetries : Nat) (backoff : ℚ) (evs : List FetchEvent) : FetchOut :=
  fetchGo maxRetries backoff evs 1 none 0

example :
    fetchWithRetry 3 2 [.resp 404 none ".jpg" []] =
      ⟨.ret 404, none, 0, 1⟩ := by norm_num [fetchWithRetry, fetchGo, isTransient, imageExts]

example :
    fetchWithRetry 3 2 [.resp 200 none ".jpg" [1, 2]] =
      ⟨.ret 200, some [1, 2], 0, 1⟩ := by norm_num [fetchWithRetry, fetchGo, isTransient, imageExts]

example :
    fetchWithRetry 3 2 [.resp 200 none ".html" [1]] =
      ⟨.ret 302, none, 0, 1⟩ := by
  norm_num [fetchWithRetry, fetchGo, isTransient, imageExts]
  decide

example :
    fetchWithRetry 3 2 [.resp 503 none "" [], .resp 503 none "" [], .resp 503 none "" []] =
      ⟨.ret 503, none, 2 + 4, 3⟩ := by norm_num [fetchWithRetry, fetchGo, isTransient, imageExts]

example :
    fetchWithRetry 3 2 [.resp 429 none "" [], .resp 429 none "" [], .resp 429 none "" []] =
      ⟨.ret (-1), none, 15, 3⟩ := by norm_num [fetchWithRetry, fetchGo, isTransient, imageExts]

example :
    fetchWithRetry 2 1 [.okMidErr [255], .resp 404 none "" []] =
      ⟨.ret 404, some [255], 1, 2⟩ := by norm_num [fetchWithRetry, fetchGo, isTransient, imageExts]

/-! ## SequenceWalker: the `__main__` download loop

The loop `for i in itertools.count(args.start)` handles one page number per
iteration.  The environment supplies, per page, what the filesystem and one
whole `fetch_with_retry` call produced: either the destination file is already
a valid JPEG (cache hit, no network), or the fetch raised a network exception,
or the fetch returned `(status, headers)` together with whether the temp file
exists afterwards.  `jitter` is the `random.random()` draw used by the
inter-page sleep when the page is handled by a successful download. -/

/-- Per-page environment entry for one iteration of the download loop. -/
inductive PageEnv : Type
  | cached
  | raised
  | ret (status : Int) (contentType : String) (tmpExists : Bool) (jitter : ℚ)
deriving DecidableEq, Repr

/-- The loop's mutable state plus the observable effect trace:
`i` is the loop variable (next page number), `numPdf` is `num_pdf`,
`fails` is `consecutive_failures`; `sleeps` records each inter-page sleep
duration, `downloads` each page renamed into place, `reqs` the number of
`fetch_with_retry` calls made. -/
structure WalkSt : Type where
  i : Nat
  numPdf : Nat
  fails : Nat
  sleeps : List ℚ
  downloads : List Nat
  reqs : Nat
deriving DecidableEq, Repr

/-- How the loop ends: `finished` is the 404 break, `authAbort` the 302
break, `failAbort` the consecutive-failure break, `ranOut` marks an
environment list that ended before the loop did. -/
inductive WalkEnd : Type
  | finished
  | authAbort
  | failAbort
  | ranOut
deriving DecidableEq, Repr

/-- Result of one loop iteration: continue with a new state, or break. -/
inductive StepRes : Type
  | cont (s : WalkSt)
  | stop (s : WalkSt) (e : WalkEnd)
deriving DecidableEq, Repr

/-- The inter-page sleep `if args.delay: time.sleep(args.delay * (0.5 + random.random()))`
reached only when the iteration falls through to the bottom of the loop body. -/
def sleepAfter (delay jitter : ℚ) (sleeps : List ℚ) : List ℚ :=
  if delay ≠ 0 then sleeps ++ [delay * (1/2 + jitter)] else sleeps

/-- Python's `content_type.startswith("image/")`, stated over the character
sequences of the strings (`str.startswith` is exactly prefix testing). -/
def startsWithImage (contentType : String) : Bool :=
  "image/".data.isPrefixOf contentType.data

/-- Shared failure bookkeeping: `consecutive_failures += 1`, break on the
ceiling, otherwise `continue` (which skips the bottom-of-loop sleep). -/
def failStep (s : WalkSt) : StepRes :=
  if s.fails + 1 ≥ maxConsecutiveFailures then
    .stop { s with fails := s.fails + 1 } .failAbort
  else
    .cont { s with i := s.i + 1, fails := s.fails + 1 }

/-- One iteration of the download loop over page number `s.i`, translated
branch by branch: cache hit (`is_valid_jpeg(dest)`); the network-exception
handler; `status == 404`; `status == 302`; `status != 200`; the content-type
and temp-file check; and the success path (`tmp.rename(dest)`), which is the
only path that reaches the bottom-of-loop sleep. -/
def walkStep (delay : ℚ) (s : WalkSt) (e : PageEnv) : StepRes :=
  match e with
  | .cached =>
    .cont { s with i := s.i + 1, numPdf := s.i + 1, fails := 0 }
  | .raised =>
    failStep { s with reqs := s.reqs + 1 }
  | .ret status contentType tmpExists jitter =>
    let s1 : WalkSt := { s with reqs := s.reqs + 1 }
    if status == 404 then .stop { s1 with numPdf := s.i } .finished
    else if status == 302 then .stop { s1 with numPdf := s.i } .authAbort
    else if status != 200 then failStep s1
    else if ¬ startsWithImage contentType ∨ ¬ tmpExists then failStep s1
    else
      .cont { s1 with
              i := s.i + 1
              numPdf := s.i + 1
              fails := 0
              downloads := s.downloads ++ [s.i]
              sleeps := sleepAfter delay jitter s.sleeps }

/-- Run the loop over an environment list, one entry per page number. -/
def walkGo (delay : ℚ) : List PageEnv → WalkSt → WalkSt × WalkEnd
  | [], s => (s, .ranOut)
  | e :: rest, s =>
    match walkStep delay s e with
    | .cont s1 => walkGo delay rest s1
    | .stop s1 fin => (s1, fin)

/-- Initial loop state: `num_pdf = args.start`, `consecutive_failures = 0`,
first page number `args.start`. -/
def initWalk (start : Nat) : WalkSt :=
  ⟨start, start, 0, [], [], 0⟩

/-- A page environment entry that takes one of the failure-skip branches of
the loop (not a cache hit, not 404/302, not a successful download). -/
def isFailureEnv : PageEnv → Bool
  | .cached => false
  | .raised => true
  | .ret status contentType tmpExists _ =>
    status ≠ 404 ∧ status ≠ 302 ∧
      (status ≠ 200 ∨ ¬ startsWithImage contentType ∨ ¬ tmpExists)

/-- The `__main__` flow around the loop: the unconditional authentication
probe request (one GET; `SystemExit(1)` if it resolved to a non-image URL),
then the loop, then — for every loop exit, break or not — the fall-through to
`img2pdf` and implicit exit 0.  The result records the process exit code, the
total number of network requests, and the loop outcome when reached. -/
structure MainOut : Type where
  exitCode : Nat
  requests : Nat
  walk : Option (WalkSt × WalkEnd)
deriving DecidableEq, Repr

/-- `__main__` in download mode (no `--pdf-only`). -/
def mainRun (probeAuthRedirect : Bool) (delay : ℚ) (start : Nat)
    (env : List PageEnv) : MainOut :=
  if probeAuthRedirect then ⟨1, 1, none⟩
  else
    let w := walkGo delay env (initWalk start)
    ⟨0, 1 + w.1.reqs, some w⟩

example :
    walkGo (1/2) [.ret 404 "" false 0] (initWalk 1) =
      (⟨1, 1, 0, [], [], 1⟩, .finished) := by
  norm_num [walkGo, walkStep, initWalk]

example :
    walkGo (1/2) [.cached, .ret 404 "" false 0] (initWalk 1) =
      (⟨2, 2, 0, [], [], 1⟩, .finished) := by
  norm_num [walkGo, walkStep, initWalk]

example :
    walkGo (1/2) [.ret 200 "image/jpeg" true 0, .ret 404 "" false 0] (initWalk 1) =
      (⟨2, 2, 0, [1/4], [1], 2⟩, .finished) := by
  norm_num [walkGo, walkStep, initWalk, sleepAfter, startsWithImage]

example :
    walkGo (1/2) [.ret 503 "" false 0, .ret 404 "" false 0] (initWalk 1) =
      (⟨2, 2, 1, [], [], 2⟩, .finished) := by
  norm_num [walkGo, walkStep, initWalk, failStep, maxConsecutiveFailures]

example :
    walkGo (1/2) [.ret 302 "text/html" false 0] (initWalk 1) =
      (⟨1, 1, 0, [], [], 1⟩, .authAbort) := by
  norm_num [walkGo, walkStep, initWalk]

/-! ## DocumentAssembler: `img2pdf` and the `--pdf-only` bound

The page directory is modelled as a map from page number to the state of the
file `{name}-{zeroPad3(n)}.jpg`: absent, present but failing the JPEG
integrity check, or a valid JPEG with the pixel data `Image.open` reports. -/

/-- State of one cached page file. -/
inductive FileState : Type
  | absent
  | corrupt
  | valid (width height : Nat) (mode : String)
deriving DecidableEq, Repr

/-- `is_valid_jpeg`: the file exists and `Image.verify` accepts it. -/
def isValidJpeg : FileState → Bool
  | .valid _ _ _ => true
  | _ => false

/-- The three pikepdf colour spaces the assembler can emit. -/
inductive ColorSpace : Type
  | deviceRGB
  | deviceCMYK
  | deviceGray
deriving DecidableEq, Repr

/-- `COLORSPACE_MAP.get(img.mode, pikepdf.Name.DeviceRGB)`. -/
def colorspaceMap (mode : String) : ColorSpace :=
  if mode = "RGB" then .deviceRGB
  else if mode = "CMYK" then .deviceCMYK
  else if mode = "L" then .deviceGray
  else .deviceRGB

/-- One page appended to the output PDF: its page number, the image
dimensions used for `Width`/`Height`/`MediaBox`, and the colour space. -/
structure PdfPage : Type where
  pageNum : Nat
  width : Nat
  height : Nat
  colorSpace : ColorSpace
deriving DecidableEq, Repr

/-- `_load_page` for page `n`: read the file and decode dimensions and mode.
Only ever applied to pages that passed `is_valid_jpeg`. -/
def loadPage (fs : Nat → FileState) (n : Nat) : PdfPage :=
  match fs n with
  | .valid w h mode => ⟨n, w, h, colorspaceMap mode⟩
  | _ => ⟨n, 0, 0, .deviceRGB⟩

/-- `existing[batch_start:batch_start + PDF_BATCH_SIZE]` slicing: partition a
list into consecutive chunks of `PDF_BATCH_SIZE`. -/
def chunksOf (l : List α) : List (List α) :=
  if h : l.isEmpty then []
  else l.take pdfBatchSize :: chunksOf (l.drop pdfBatchSize)
termination_by l.length
decreasing_by
  simp only [List.length_drop]
  have hl : l ≠ [] := by simpa [List.isEmpty_iff] using h
  have := List.length_pos.mpr hl
  simp [pdfBatchSize]
  omega

/-- The page numbers `img2pdf` selects: `range(1, num)` filtered by
`is_valid_jpeg` (in `existing`, `(i + 1, f)` over `enumerate` makes the kept
index exactly the page number). -/
def existingPages (fs : Nat → FileState) (num : Nat) : List Nat :=
  (List.range' 1 (num - 1)).filter (fun n => isValidJpeg (fs n))

/-- `img2pdf`: batch the valid pages, decode each batch concurrently —
`sched b` is the order in which the batch's futures complete — collect the
results into the dict keyed by page number, then append them in
`sorted(results)` order; batches are appended in ascending order. -/
def img2pdfPages (fs : Nat → FileState) (num : Nat)
    (sched : List Nat → List Nat) : List PdfPage :=
  ((chunksOf (existingPages fs num)).map
    (fun b => ((sched b).mergeSort).map (loadPage fs))).flatten

/-- `max(nums)` guarded by `if nums else`: Python's `max` over a nonempty
list of naturals. -/
def maxOf (l : List Nat) : Nat := l.foldr max 0

/-- The `--pdf-only` bound: page numbers are parsed back out of the globbed
file names (`present` lists the page numbers of the files in the directory),
kept when the file passes `is_valid_jpeg`, and the bound is
`max(nums) + 1 if nums else 1`. -/
def pdfOnlyNum (present : List Nat) (fs : Nat → FileState) : Nat :=
  let nums := present.filter (fun n => isValidJpeg (fs n))
  if nums.isEmpty then 1 else maxOf nums + 1

example : chunksOf (List.range' 1 5) = [[1, 2, 3, 4, 5]] := by
  rw [chunksOf, chunksOf]
  all_goals decide

example :
    existingPages (fun n => if 1 ≤ n ∧ n ≤ 2 then .valid 10 20 "RGB" else .absent) 4 =
      [1, 2] := by decide

example : pdfOnlyNum [3, 7] (fun _ => .valid 10 20 "RGB") = 8 := by decide

example : pdfOnlyNum [3, 7] (fun _ => .corrupt) = 1 := by decide

/-! ## Assembly lemmas -/

theorem chunksOf_flatten (l : List α) : (chunksOf l).flatten = l := by
  induction l using chunksOf.induct with
  | case1 l h =>
    rw [chunksOf]
    simp_all [List.isEmpty_iff]
  | case2 l h ih =>
    rw [chunksOf, dif_neg h]
    simp [ih]

theorem chunksOf_sublist (l : List α) (b : List α) (hb : b ∈ chunksOf l) :
    b.Sublist l := by
  induction l using chunksOf.induct with
  | case1 l h =>
    rw [chunksOf] at hb
    simp [h] at hb
  | case2 l h ih =>
    rw [chunksOf, dif_neg h] at hb
    rcases List.mem_cons.mp hb with rfl | hb2
    · exact List.take_sublist _ _
    · exact (ih hb2).trans (List.drop_sublist _ _)

theorem existingPages_sorted (fs : Nat → FileState) (num : Nat) :
    (existingPages fs num).Pairwise (· < ·) :=
  (List.pairwise_lt_range' 1 (num - 1)).filter _

/-- Two facts about `sorted(results)`: merge-sorting any completion order of a
batch restores exactly the batch, provided the batch is sorted. -/
theorem mergeSort_restores {b c : List Nat} (hs : b.Pairwise (· ≤ ·))
    (hp : c.Perm b) : c.mergeSort = b :=
  List.eq_of_perm_of_sorted ((List.mergeSort_perm c _).trans hp)
    (List.sorted_mergeSort' c) hs

theorem img2pdfPages_id (fs : Nat → FileState) (num : Nat) :
    img2pdfPages fs num id = (existingPages fs num).map (loadPage fs) := by
  unfold img2pdfPages
  simp only [id_eq]
  have hchunks : ∀ b ∈ chunksOf (existingPages fs num),
      (b.mergeSort).map (loadPage fs) = b.map (loadPage fs) := by
    intro b hb
    have hsor : b.Pairwise (· ≤ ·) :=
      (((existingPages_sorted fs num).sublist (chunksOf_sublist _ b hb)).imp
        Nat.le_of_lt)
    rw [mergeSort_restores hsor (List.Perm.refl b)]
  rw [List.map_congr_left hchunks, ← List.map_flatten, chunksOf_flatten]

theorem img2pdfPages_sched (fs : Nat → FileState) (num : Nat)
    (sched : List Nat → List Nat)
    (hsched : ∀ b ∈ chunksOf (existingPages fs num), (sched b).Perm b) :
    img2pdfPages fs num sched = (existingPages fs num).map (loadPage fs) := by
  unfold img2pdfPages
  have hchunks : ∀ b ∈ chunksOf (existingPages fs num),
      ((sched b).mergeSort).map (loadPage fs) = b.map (loadPage fs) := by
    intro b hb
    have hsor : b.Pairwise (· ≤ ·) :=
      (((existingPages_sorted fs num).sublist (chunksOf_sublist _ b hb)).imp
        Nat.le_of_lt)
    rw [mergeSort_restores hsor (hsched b hb)]
  rw [List.map_congr_left hchunks, ← List.map_flatten, chunksOf_flatten]

theorem loadPage_pageNum (fs : Nat → FileState) (n : Nat) :
    (loadPage fs n).pageNum = n := by
  unfold loadPage
  cases fs n <;> rfl

theorem img2pdfPages_pageNums (fs : Nat → FileState) (num : Nat) :
    (img2pdfPages fs num id).map PdfPage.pageNum = existingPages fs num := by
  rw [img2pdfPages_id, List.map_map]
  have : (PdfPage.pageNum ∘ loadPage fs) = fun n => n := by
    funext n
    exact loadPage_pageNum fs n
  simp [this]

theorem le_maxOf {l : List Nat} {n : Nat} (h : n ∈ l) : n ≤ maxOf l := by
  induction l with
  | nil => cases h
  | cons a t ih =>
    rcases List.mem_cons.mp h with rfl | h2
    · exact Nat.le_max_left _ _
    · exact (ih h2).trans (Nat.le_max_right _ _)

/-! ## Fetch lemmas -/

/-- A transient status is not 429 and not 200. -/
theorem isTransient_elim {st : Int} (h : isTransient st = true) :
    (st == 429) = false ∧ (st == 200) = false := by
  simp only [isTransient, Bool.or_eq_true, beq_iff_eq] at h
  rcases h with ((h | h) | h) | h <;> subst h <;> decide

/-- If every attempt observes the same transient server error, the loop keeps
backing off and retrying until the last attempt returns that status.  Running
from attempt `a` with `k + 1` remaining attempts (`a + k = maxRetries`), the
extra sleep accumulated is `backoff * (2 ^ (maxRetries - 1) - 2 ^ (a - 1))`. -/
theorem fetchGo_transient {st : Int} (hst : isTransient st = true) :
    ∀ (k a maxRetries : Nat) (b : ℚ) (tmp : Option (List Nat)) (slept : ℚ),
      a + k = maxRetries → 1 ≤ a →
      fetchGo maxRetries b (List.replicate (k + 1) (.resp st none "" [])) a tmp slept =
        ⟨.ret st, tmp, slept + b * (2 ^ (maxRetries - 1) - 2 ^ (a - 1)), maxRetries⟩ := by
  intro k
  induction k with
  | zero =>
    intro a mr b tmp slept hamr ha
    obtain rfl : a = mr := by omega
    rw [List.replicate_one, fetchGo]
    rw [if_neg (show ¬ a > a by omega)]
    simp only [(isTransient_elim hst).1, Bool.false_eq_true, if_false, hst, if_true,
      beq_self_eq_true]
    have hpow : slept + b * ((2 : ℚ) ^ (a - 1) - 2 ^ (a - 1)) = slept := by ring
    rw [hpow]
  | succ k ih =>
    intro a mr b tmp slept hamr ha
    rw [List.replicate_succ, fetchGo]
    rw [if_neg (show ¬ a > mr by omega)]
    simp only [(isTransient_elim hst).1, Bool.false_eq_true, if_false, hst, if_true]
    rw [show (a == mr) = false by simp only [beq_eq_false_iff_ne, ne_eq]; omega]
    simp only [Bool.false_eq_true, if_false]
    rw [ih (a + 1) mr b tmp (slept + b * 2 ^ (a - 1)) (by omega) (by omega)]
    simp only [Nat.add_sub_cancel]
    have hpow : slept + b * 2 ^ (a - 1) + b * ((2 : ℚ) ^ (mr - 1) - 2 ^ a) =
        slept + b * (2 ^ (mr - 1) - 2 ^ (a - 1)) := by
      rw [show (2 : ℚ) ^ a = 2 ^ (a - 1) * 2 from by
        rw [← pow_succ, Nat.sub_add_cancel ha]]
      ring
    rw [hpow]

/-- The geometric backoff series in closed form. -/
theorem sum_backoff (b : ℚ) (n : Nat) :
    ∑ k ∈ Finset.range n, b * 2 ^ k = b * (2 ^ n - 1) := by
  induction n with
  | zero => simp
  | succ n ih =>
    rw [Finset.sum_range_succ, ih]
    ring

/-- If every attempt observes a 429 rate-limit response, each attempt sleeps
the `Retry-After` default of 5 seconds and advances the loop variable; after
`maxRetries` such attempts the loop falls through to `return -1, {}`. -/
theorem fetchGo_rate429 :
    ∀ (k a maxRetries : Nat) (b : ℚ) (tmp : Option (List Nat)) (slept : ℚ)
      (rest : List FetchEvent),
      a + k = maxRetries + 1 → 1 ≤ a →
      fetchGo maxRetries b
          (List.replicate k (.resp 429 none "" []) ++ rest) a tmp slept =
        ⟨.ret (-1), tmp, slept + 5 * k, maxRetries⟩ := by
  intro k
  induction k with
  | zero =>
    intro a mr b tmp slept rest hamr ha
    obtain rfl : a = mr + 1 := by omega
    rw [List.replicate_zero, List.nil_append, fetchGo.eq_def]
    dsimp only
    rw [if_pos (show mr + 1 > mr by omega)]
    have h0 : slept + 5 * ((0 : Nat) : ℚ) = slept := by push_cast; ring
    rw [h0]
    norm_num
  | succ k ih =>
    intro a mr b tmp slept rest hamr ha
    rw [List.replicate_succ, List.cons_append, fetchGo]
    rw [if_neg (show ¬ a > mr by omega)]
    simp only [show ((429 : Int) == 429) = true from rfl, if_true, Option.getD_none]
    rw [ih (a + 1) mr b tmp (slept + ((5 : Nat) : ℚ)) rest (by omega) (by omega)]
    rw [show slept + ((5 : Nat) : ℚ) + 5 * (k : ℚ) = slept + 5 * ((k + 1 : Nat) : ℚ) from by
      push_cast
      ring]

/-- Does this attempt event write to the temp file?  Only a 200 response whose
final URL has an image extension opens `tmp_path` for writing (completely, or
interrupted mid-stream). -/
def writesTmp : FetchEvent → Bool
  | .resp status _ finalExt _ => status == 200 && finalExt ∈ imageExts
  | .okMidErr _ => true
  | .netErr => false

/-- If no attempt writes, the contents at the temp path never change. -/
theorem fetchGo_tmp_invariant :
    ∀ (evs : List FetchEvent) (maxRetries : Nat) (b : ℚ) (a : Nat)
      (tmp : Option (List Nat)) (slept : ℚ),
      (∀ e ∈ evs, writesTmp e = false) →
      (fetchGo maxRetries b evs a tmp slept).tmp = tmp := by
  intro evs
  induction evs with
  | nil =>
    intro mr b a tmp slept _
    rw [fetchGo]
    split
    · rfl
    · rfl
  | cons e rest ih =>
    intro mr b a tmp slept h
    have he : writesTmp e = false := h e (List.mem_cons_self e rest)
    have hrest : ∀ x ∈ rest, writesTmp x = false :=
      fun x hx => h x (List.mem_cons_of_mem e hx)
    cases e with
    | resp status retryAfter finalExt body =>
      simp only [writesTmp, Bool.and_eq_false_iff] at he
      rw [fetchGo]
      split
      · rfl
      · by_cases h429 : (status == 429) = true
        · rw [h429]
          simp only [if_true]
          exact ih mr b (a + 1) tmp _ hrest
        · rw [Bool.not_eq_true] at h429
          rw [h429]
          simp only [Bool.false_eq_true, if_false]
          by_cases htr : isTransient status = true
          · rw [htr]
            simp only [if_true]
            split
            · rfl
            · exact ih mr b (a + 1) tmp _ hrest
          · rw [Bool.not_eq_true] at htr
            rw [htr]
            simp only [Bool.false_eq_true, if_false]
            by_cases h200 : (status == 200) = true
            · rw [h200]
              simp only [if_true]
              rcases he with he | he
              · rw [h200] at he
                cases he
              · rw [if_neg (by simpa using he)]
            · rw [Bool.not_eq_true] at h200
              rw [h200]
              simp only [Bool.false_eq_true, if_false]
    | okMidErr written =>
      simp [writesTmp] at he
    | netErr =>
      rw [fetchGo]
      split
      · rfl
      · split
        · rfl
        · exact ih mr b (a + 1) tmp _ hrest

/-- If `fetch_with_retry` returns status 200, the temp file holds a complete
body: the success branch is the only one that returns 200. -/
theorem fetchGo_success_writes :
    ∀ (evs : List FetchEvent) (maxRetries : Nat) (b : ℚ) (a : Nat)
      (tmp : Option (List Nat)) (slept : ℚ),
      (fetchGo maxRetries b evs a tmp slept).res = .ret 200 →
      ∃ body, (fetchGo maxRetries b evs a tmp slept).tmp = some body := by
  intro evs
  induction evs with
  | nil =>
    intro mr b a tmp slept hres
    rw [fetchGo] at hres
    split at hres
    · cases hres
    · cases hres
  | cons e rest ih =>
    intro mr b a tmp slept hres
    cases e with
    | resp status retryAfter finalExt body =>
      rw [fetchGo] at hres ⊢
      by_cases hgt : a > mr
      · rw [if_pos hgt] at hres
        cases hres
      · rw [if_neg hgt] at hres ⊢
        by_cases h429 : (status == 429) = true
        · rw [h429] at hres ⊢
          simp only [if_true] at hres ⊢
          exact ih mr b (a + 1) tmp _ hres
        · rw [Bool.not_eq_true] at h429
          rw [h429] at hres ⊢
          simp only [Bool.false_eq_true, if_false] at hres ⊢
          by_cases htr : isTransient status = true
          · rw [htr] at hres ⊢
            simp only [if_true] at hres ⊢
            by_cases ham : (a == mr) = true
            · rw [ham] at hres
              simp only [if_true] at hres
              exfalso
              simp only [FetchRes.ret.injEq] at hres
              rw [hres] at htr
              simp [isTransient] at htr
            · rw [Bool.not_eq_true] at ham
              rw [ham] at hres ⊢
              simp only [Bool.false_eq_true, if_false] at hres ⊢
              exact ih mr b (a + 1) tmp _ hres
          · rw [Bool.not_eq_true] at htr
            rw [htr] at hres ⊢
            simp only [Bool.false_eq_true, if_false] at hres ⊢
            by_cases h200 : (status == 200) = true
            · rw [h200] at hres ⊢
              simp only [if_true] at hres ⊢
              by_cases hext : finalExt ∈ imageExts
              · rw [if_pos hext]
                exact ⟨body, rfl⟩
              · rw [if_neg hext] at hres
                cases hres
            · rw [Bool.not_eq_true] at h200
              rw [h200] at hres
              simp only [Bool.false_eq_true, if_false] at hres
              exfalso
              simp only [FetchRes.ret.injEq] at hres
              rw [hres] at h200
              cases h200
    | okMidErr written =>
      rw [fetchGo] at hres ⊢
      by_cases hgt : a > mr
      · rw [if_pos hgt] at hres
        cases hres
      · rw [if_neg hgt] at hres ⊢
        by_cases ham : (a == mr) = true
        · rw [ham] at hres
          simp only [if_true] at hres
          cases hres
        · rw [Bool.not_eq_true] at ham
          rw [ham] at hres ⊢
          simp only [Bool.false_eq_true, if_false] at hres ⊢
          exact ih mr b (a + 1) (some written) _ hres
    | netErr =>
      rw [fetchGo] at hres ⊢
      by_cases hgt : a > mr
      · rw [if_pos hgt] at hres
        cases hres
      · rw [if_neg hgt] at hres ⊢
        by_cases ham : (a == mr) = true
        · rw [ham] at hres
          simp only [if_true] at hres
          cases hres
        · rw [Bool.not_eq_true] at ham
          rw [ham] at hres ⊢
          simp only [Bool.false_eq_true, if_false] at hres ⊢
          exact ih mr b (a + 1) tmp _ hres

/-! ## Walk lemmas -/

/-- A failure-skip page behaves exactly like `failStep` applied after the
request was counted, whichever failure branch it took. -/
theorem walkStep_fail (delay : ℚ) (s : WalkSt) (e : PageEnv)
    (he : isFailureEnv e = true) :
    walkStep delay s e = failStep { s with reqs := s.reqs + 1 } := by
  cases e with
  | cached => simp [isFailureEnv] at he
  | raised => rfl
  | ret status ct te j =>
    simp only [isFailureEnv, decide_eq_true_eq] at he
    obtain ⟨h404, h302, h200⟩ := he
    rw [walkStep]
    dsimp only
    rw [show (status == 404) = false from by simpa [beq_eq_false_iff_ne] using h404]
    simp only [Bool.false_eq_true, if_false]
    rw [show (status == 302) = false from by simpa [beq_eq_false_iff_ne] using h302]
    simp only [Bool.false_eq_true, if_false]
    by_cases hs : status = 200
    · subst hs
      rw [show ((200 : Int) != 200) = false from rfl]
      simp only [Bool.false_eq_true, if_false]
      rcases h200 with h | h
      · exact absurd rfl h
      · rw [if_pos h]
    · rw [show (status != 200) = true from by simpa [bne_iff_ne] using hs]
      simp only [if_true]

/-- A cache hit advances the page, bumps `num_pdf`, resets the failure
counter, makes no request and records no sleep. -/
theorem walkStep_cached (delay : ℚ) (s : WalkSt) :
    walkStep delay s .cached =
      .cont { s with i := s.i + 1, numPdf := s.i + 1, fails := 0 } := rfl

/-- A successful download advances the page, bumps `num_pdf`, resets the
failure counter, records the download, and sleeps the jittered delay. -/
theorem walkStep_success (delay j : ℚ) (s : WalkSt) (ct : String) (te : Bool)
    (hct : startsWithImage ct = true) (hte : te = true) :
    walkStep delay s (.ret 200 ct te j) =
      .cont { s with
              i := s.i + 1
              numPdf := s.i + 1
              fails := 0
              downloads := s.downloads ++ [s.i]
              sleeps := sleepAfter delay j s.sleeps
              reqs := s.reqs + 1 } := by
  subst hte
  rw [walkStep]
  dsimp only
  rw [show ((200 : Int) == 404) = false from rfl]
  simp only [Bool.false_eq_true, if_false]
  rw [show ((200 : Int) == 302) = false from rfl]
  simp only [Bool.false_eq_true, if_false]
  rw [show ((200 : Int) != 200) = false from rfl]
  simp only [Bool.false_eq_true, if_false]
  rw [if_neg (by simp [hct])]

/-- Running the loop over failure pages only, while the counter stays below
the ceiling, just accumulates skips. -/
theorem walkGo_fail_run :
    ∀ (envs : List PageEnv) (delay : ℚ) (s : WalkSt),
      (∀ e ∈ envs, isFailureEnv e = true) →
      s.fails + envs.length < maxConsecutiveFailures →
      walkGo delay envs s =
        ({ s with
           i := s.i + envs.length
           fails := s.fails + envs.length
           reqs := s.reqs + envs.length }, .ranOut) := by
  intro envs
  induction envs with
  | nil =>
    intro delay s _ _
    simp [walkGo]
  | cons e rest ih =>
    intro delay s h hlt
    have he := h e (List.mem_cons_self e rest)
    rw [walkGo, walkStep_fail delay s e he, failStep]
    rw [if_neg (show ¬ ({ s with reqs := s.reqs + 1 } : WalkSt).fails + 1 ≥
        maxConsecutiveFailures from by
      simp only [maxConsecutiveFailures] at hlt ⊢
      simp only [List.length_cons] at hlt
      omega)]
    dsimp only
    rw [ih delay _ (fun x hx => h x (List.mem_cons_of_mem e hx)) (by
      simp only [maxConsecutiveFailures] at hlt ⊢
      simp only [List.length_cons] at hlt
      omega)]
    simp only [Prod.mk.injEq, WalkSt.mk.injEq, List.length_cons, and_true, true_and]
    omega

/-- Running the loop over failure pages whose count exactly exhausts the
remaining failure budget aborts at the last of them. -/
theorem walkGo_fail_abort :
    ∀ (envs rest : List PageEnv) (delay : ℚ) (s : WalkSt),
      envs ≠ [] →
      (∀ e ∈ envs, isFailureEnv e = true) →
      s.fails + envs.length = maxConsecutiveFailures →
      walkGo delay (envs ++ rest) s =
        ({ s with
           i := s.i + (envs.length - 1)
           fails := maxConsecutiveFailures
           reqs := s.reqs + envs.length }, .failAbort) := by
  intro envs
  induction envs with
  | nil =>
    intro rest delay s hne
    exact absurd rfl hne
  | cons e tl ih =>
    intro rest delay s _ h hsum
    have he := h e (List.mem_cons_self e tl)
    rw [List.cons_append, walkGo, walkStep_fail delay s e he, failStep]
    by_cases htl : tl = []
    · subst htl
      rw [if_pos (show ({ s with reqs := s.reqs + 1 } : WalkSt).fails + 1 ≥
          maxConsecutiveFailures from by
        simp only [List.length_cons, List.length_nil] at hsum
        simp only
        omega)]
      simp only [Prod.mk.injEq, WalkSt.mk.injEq, List.length_cons, List.length_nil,
        and_true, true_and]
      simp only [List.length_cons, List.length_nil] at hsum
      simp only [maxConsecutiveFailures] at hsum ⊢
      omega
    · have htl1 : 1 ≤ tl.length := List.length_pos.mpr htl
      rw [if_neg (show ¬ ({ s with reqs := s.reqs + 1 } : WalkSt).fails + 1 ≥
          maxConsecutiveFailures from by
        simp only [List.length_cons] at hsum
        simp only [maxConsecutiveFailures] at hsum ⊢
        omega)]
      dsimp only
      rw [ih rest delay _ htl (fun x hx => h x (List.mem_cons_of_mem e hx)) (by
        simp only [List.length_cons] at hsum
        simp only
        omega)]
      simp only [Prod.mk.injEq, WalkSt.mk.injEq, List.length_cons, and_true, true_and]
      omega

/-- Running the loop over an already-cached prefix makes no request, records
no sleep or download, and leaves `num_pdf` one past the last cached page. -/
theorem walkGo_cached_block :
    ∀ (k : Nat) (delay : ℚ) (s : WalkSt) (rest : List PageEnv), 1 ≤ k →
      walkGo delay (List.replicate k .cached ++ rest) s =
        walkGo delay rest { s with i := s.i + k, numPdf := s.i + k, fails := 0 } := by
  intro k
  induction k with
  | zero =>
    intro _ _ _ h
    omega
  | succ k ih =>
    intro delay s rest _
    rw [List.replicate_succ, List.cons_append, walkGo, walkStep_cached]
    dsimp only
    by_cases hk : k = 0
    · subst hk
      simp [List.replicate]
    · rw [ih delay _ rest (by omega)]
      congr 1
      simp only [WalkSt.mk.injEq, and_true, true_and]
      omega

/-- Running the loop over a prefix of successful downloads records one
request, one download and one jittered sleep per page. -/
theorem walkGo_success_block :
    ∀ (k : Nat) (delay j : ℚ) (s : WalkSt) (rest : List PageEnv), 1 ≤ k →
      walkGo delay (List.replicate k (.ret 200 "image/jpeg" true j) ++ rest) s =
        walkGo delay rest
          { s with
            i := s.i + k
            numPdf := s.i + k
            fails := 0
            downloads := s.downloads ++ List.range' s.i k
            sleeps := s.sleeps ++
              (if delay ≠ 0 then List.replicate k (delay * (1/2 + j)) else [])
            reqs := s.reqs + k } := by
  intro k
  induction k with
  | zero =>
    intro _ _ _ _ h
    omega
  | succ k ih =>
    intro delay j s rest _
    rw [List.replicate_succ, List.cons_append, walkGo,
      walkStep_success delay j s "image/jpeg" true (by decide) rfl]
    dsimp only
    by_cases hk : k = 0
    · subst hk
      simp only [List.replicate, List.nil_append, sleepAfter]
      congr 1
      simp only [WalkSt.mk.injEq, and_true, true_and]
      refine ⟨?_, ?_⟩
      · split
        · rfl
        · simp
      · simp [List.range'_one]
    · rw [ih delay j _ rest (by omega)]
      congr 1
      simp only [WalkSt.mk.injEq, and_true, true_and]
      refine ⟨by omega, by omega, ?_, ?_, by omega⟩
      · rw [sleepAfter]
        by_cases hd : delay ≠ 0
        · rw [if_pos hd, if_pos hd, if_pos hd]
          rw [List.append_assoc, List.singleton_append, ← List.replicate_succ]
        · rw [if_neg hd, if_neg hd, if_neg hd]
      · rw [List.append_assoc, List.singleton_append, ← List.range'_succ]

/-! ## Sleep bookkeeping lemmas -/

/-- The `random.random()` draw carried by a fetched-page environment entry. -/
def envJitter : PageEnv → Option ℚ
  | .ret _ _ _ j => some j
  | _ => none

/-- The jitter draw of an entry lies in `[0, 1)`, as `random.random()`
guarantees. -/
def jitterBounded : PageEnv → Prop
  | .ret _ _ _ j => 0 ≤ j ∧ j < 1
  | _ => True

/-- Every loop iteration either stops, or continues without touching the
sleep and download traces, or is a successful download that appends exactly
one download and one jittered sleep. -/
theorem walkStep_shape (delay : ℚ) (s : WalkSt) (e : PageEnv) :
    (∃ s1 fin, walkStep delay s e = .stop s1 fin
        ∧ s1.sleeps = s.sleeps ∧ s1.downloads = s.downloads) ∨
    (∃ s1, walkStep delay s e = .cont s1
        ∧ ((s1.sleeps = s.sleeps ∧ s1.downloads = s.downloads)
          ∨ (∃ j, envJitter e = some j
              ∧ s1.sleeps = sleepAfter delay j s.sleeps
              ∧ s1.downloads = s.downloads ++ [s.i]))) := by
  cases e with
  | cached =>
    right
    exact ⟨_, rfl, Or.inl ⟨rfl, rfl⟩⟩
  | raised =>
    rw [walkStep, failStep]
    split
    · left
      exact ⟨_, _, rfl, rfl, rfl⟩
    · right
      exact ⟨_, rfl, Or.inl ⟨rfl, rfl⟩⟩
  | ret st ct te j =>
    rw [walkStep]
    dsimp only
    split
    · left
      exact ⟨_, _, rfl, rfl, rfl⟩
    · split
      · left
        exact ⟨_, _, rfl, rfl, rfl⟩
      · split
        · rw [failStep]
          split
          · left
            exact ⟨_, _, rfl, rfl, rfl⟩
          · right
            exact ⟨_, rfl, Or.inl ⟨rfl, rfl⟩⟩
        · split
          · rw [failStep]
            split
            · left
              exact ⟨_, _, rfl, rfl, rfl⟩
            · right
              exact ⟨_, rfl, Or.inl ⟨rfl, rfl⟩⟩
          · right
            exact ⟨_, rfl, Or.inr ⟨j, rfl, rfl, rfl⟩⟩

/-- The loop records exactly one sleep per recorded download (when a nonzero
delay is configured): failure skips and cache hits record neither. -/
theorem walkGo_sleeps_len :
    ∀ (envs : List PageEnv) (delay : ℚ) (s : WalkSt), delay ≠ 0 →
      (walkGo delay envs s).1.sleeps.length + s.downloads.length =
        (walkGo delay envs s).1.downloads.length + s.sleeps.length := by
  intro envs
  induction envs with
  | nil =>
    intro delay s _
    rw [walkGo]
    dsimp only
    omega
  | cons e rest ih =>
    intro delay s hd
    rw [walkGo]
    rcases walkStep_shape delay s e with ⟨s1, fin, heq, hs, hdl⟩ | ⟨s1, heq, hcase⟩
    · rw [heq]
      dsimp only
      rw [hs, hdl]
      omega
    · rw [heq]
      dsimp only
      have hrec := ih delay s1 hd
      rcases hcase with ⟨hs, hdl⟩ | ⟨j, _, hs, hdl⟩
      · rw [hs, hdl] at hrec
        omega
      · rw [hs, hdl] at hrec
        rw [sleepAfter, if_pos hd] at hrec
        simp only [List.length_append, List.length_cons, List.length_nil] at hrec
        omega

/-- Every recorded sleep is the configured delay scaled by a jitter factor in
`[0.5, 1.5)`, provided the jitter draws are in `[0, 1)`. -/
theorem walkGo_sleeps_mem :
    ∀ (envs : List PageEnv) (delay : ℚ) (s : WalkSt),
      0 < delay → (∀ e ∈ envs, jitterBounded e) →
      ∀ x ∈ (walkGo delay envs s).1.sleeps,
        x ∈ s.sleeps ∨ (delay * (1/2) ≤ x ∧ x < delay * (3/2)) := by
  intro envs
  induction envs with
  | nil =>
    intro delay s _ _ x hx
    rw [walkGo] at hx
    exact Or.inl hx
  | cons e rest ih =>
    intro delay s hd hj x hx
    have he : jitterBounded e := hj e (List.mem_cons_self e rest)
    have hrest : ∀ y ∈ rest, jitterBounded y :=
      fun y hy => hj y (List.mem_cons_of_mem e hy)
    rw [walkGo] at hx
    rcases walkStep_shape delay s e with ⟨s1, fin, heq, hs, hdl⟩ | ⟨s1, heq, hcase⟩
    · rw [heq] at hx
      dsimp only at hx
      rw [hs] at hx
      exact Or.inl hx
    · rw [heq] at hx
      dsimp only at hx
      rcases ih delay s1 hd hrest x hx with hmem | hbnd
      · rcases hcase with ⟨hs, _⟩ | ⟨j, hje, hs, _⟩
        · rw [hs] at hmem
          exact Or.inl hmem
        · rw [hs, sleepAfter, if_pos (ne_of_gt hd)] at hmem
          rcases List.mem_append.mp hmem with hmem | hmem
          · exact Or.inl hmem
          · right
            have hxj : x = delay * (1/2 + j) := by
              simpa using hmem
            have hjb : 0 ≤ j ∧ j < 1 := by
              cases e with
              | ret st ct te jj =>
                simp only [envJitter, Option.some.injEq] at hje
                subst hje
                exact he
              | cached => simp [envJitter] at hje
              | raised => simp [envJitter] at hje
            subst hxj
            constructor
            · exact mul_le_mul_of_nonneg_left (by linarith [hjb.1]) (le_of_lt hd)
            · exact mul_lt_mul_of_pos_left (by linarith [hjb.2]) hd
      · exact Or.inr hbnd

/-! ## Stop-step lemmas -/

/-- A 404 response breaks the loop with `num_pdf = i` (the not-found page). -/
theorem walkStep_notFound (delay j : ℚ) (s : WalkSt) (ct : String) (te : Bool) :
    walkStep delay s (.ret 404 ct te j) =
      .stop { s with numPdf := s.i, reqs := s.reqs + 1 } .finished := rfl

/-- A 302 auth-redirect result breaks the loop with `num_pdf = i`. -/
theorem walkStep_auth (delay j : ℚ) (s : WalkSt) (ct : String) (te : Bool) :
    walkStep delay s (.ret 302 ct te j) =
      .stop { s with numPdf := s.i, reqs := s.reqs + 1 } .authAbort := rfl

/-! ## Claims -/

/-- Page directory for the C1 scenario: pages 1..5 are valid JPEGs, nothing
else exists. -/
def fsC1 : Nat → FileState :=
  fun n => if 1 ≤ n ∧ n ≤ 5 then .valid 100 200 "RGB" else .absent

/-- C1: if pages 1 through 5 return HTTP 200 with valid JPEG bytes and page 6
returns HTTP 404, the walk finishes with `num_pdf = 6` — the first not-found
page number, the exclusive upper bound for assembly — and the assembled
document contains exactly 5 pages in ascending order 1..5. -/
theorem c1_five_pages_then_404 :
    walkGo (1/2)
        (List.replicate 5 (.ret 200 "image/jpeg" true 0) ++ [.ret 404 "" false 0])
        (initWalk 1) =
      (⟨6, 6, 0, List.replicate 5 (1/4 : ℚ), [1, 2, 3, 4, 5], 6⟩, .finished) ∧
    (img2pdfPages fsC1 6 id).map PdfPage.pageNum = [1, 2, 3, 4, 5] ∧
    (img2pdfPages fsC1 6 id).length = 5 := by
  refine ⟨?_, ?_, ?_⟩
  · rw [walkGo_success_block 5 (1/2) 0 (initWalk 1) [.ret 404 "" false 0] (by omega),
      walkGo, walkStep_notFound]
    dsimp only [initWalk]
    rw [if_pos (by norm_num : (1/2 : ℚ) ≠ 0)]
    simp only [Prod.mk.injEq, WalkSt.mk.injEq]
    norm_num
    decide
  · rw [img2pdfPages_pageNums]
    decide
  · rw [img2pdfPages_id]
    simp only [List.length_map]
    decide

/-- C2: with the consecutive-failure ceiling 10, the walk aborts at exactly
the 10th consecutive non-success outcome and not before, and the counter is
reset to zero by every successful download and by every cache hit. -/
theorem c2_circuit_breaker :
    (∀ (delay : ℚ) (s : WalkSt) (envs rest : List PageEnv),
        s.fails = 0 → envs.length = maxConsecutiveFailures →
        (∀ e ∈ envs, isFailureEnv e = true) →
        (walkGo delay (envs ++ rest) s).2 = .failAbort ∧
        (walkGo delay (envs ++ rest) s).1.fails = maxConsecutiveFailures ∧
        (walkGo delay (envs ++ rest) s).1.i = s.i + (maxConsecutiveFailures - 1)) ∧
    (∀ (delay : ℚ) (s : WalkSt) (envs : List PageEnv),
        s.fails = 0 → envs.length < maxConsecutiveFailures →
        (∀ e ∈ envs, isFailureEnv e = true) →
        (walkGo delay envs s).2 = .ranOut ∧
        (walkGo delay envs s).1.fails = envs.length) ∧
    (∀ (delay j : ℚ) (s : WalkSt) (ct : String) (te : Bool),
        startsWithImage ct = true → te = true →
        walkStep delay s (.ret 200 ct te j) =
          .cont { s with
                  i := s.i + 1
                  numPdf := s.i + 1
                  fails := 0
                  downloads := s.downloads ++ [s.i]
                  sleeps := sleepAfter delay j s.sleeps
                  reqs := s.reqs + 1 }) ∧
    (∀ (delay : ℚ) (s : WalkSt),
        walkStep delay s .cached =
          .cont { s with i := s.i + 1, numPdf := s.i + 1, fails := 0 }) := by
  refine ⟨?_, ?_, ?_, ?_⟩
  · intro delay s envs rest hf hlen hall
    have hne : envs ≠ [] := by
      intro hc
      subst hc
      simp [maxConsecutiveFailures] at hlen
    have hsum : s.fails + envs.length = maxConsecutiveFailures := by
      rw [hf, hlen]
      omega
    have h := walkGo_fail_abort envs rest delay s hne hall hsum
    rw [h, hlen]
    refine ⟨rfl, rfl, rfl⟩
  · intro delay s envs hf hlt hall
    have h := walkGo_fail_run envs delay s hall (by omega)
    rw [h]
    exact ⟨rfl, by dsimp only; omega⟩
  · intro delay j s ct te hct hte
    exact walkStep_success delay j s ct te hct hte
  · intro delay s
    exact walkStep_cached delay s

/-- C2 witness: 10 consecutive server-error pages abort the walk from a fresh
state at exactly the 10th, and 9 such pages followed by a 404 finish
normally. -/
theorem c2_circuit_breaker_witness :
    ((1 : Nat) = 1 ∧ (List.replicate 10 (PageEnv.ret 500 "" false 0)).length =
        maxConsecutiveFailures ∧
      (∀ e ∈ List.replicate 10 (PageEnv.ret 500 "" false 0), isFailureEnv e = true)) ∧
    (walkGo (1/2) (List.replicate 10 (PageEnv.ret 500 "" false 0) ++ [])
        (initWalk 1)).2 = .failAbort ∧
    (walkGo (1/2) (List.replicate 9 (PageEnv.ret 500 "" false 0))
        (initWalk 1)).2 = .ranOut := by
  have h1 := (c2_circuit_breaker).1 (1/2) (initWalk 1)
    (List.replicate 10 (PageEnv.ret 500 "" false 0)) [] rfl (by decide) (by decide)
  have h2 := (c2_circuit_breaker).2.1 (1/2) (initWalk 1)
    (List.replicate 9 (PageEnv.ret 500 "" false 0)) rfl (by decide) (by decide)
  exact ⟨⟨rfl, by decide, by decide⟩, h1.1, h2.1⟩

/-- C3: if every attempt receives a transient server error, `fetch_with_retry`
performs exactly `maxRetries` attempts, returns that status, and the total
requested sleep equals the exponential backoff series
`sum of backoff * 2 ^ (k - 1) for k = 1 .. maxRetries - 1`. -/
theorem c3_retry_bound (maxRetries : Nat) (b : ℚ) (st : Int)
    (hmr : 1 ≤ maxRetries) (hst : isTransient st = true) :
    fetchWithRetry maxRetries b (List.replicate maxRetries (.resp st none "" [])) =
      ⟨.ret st, none, ∑ k ∈ Finset.range (maxRetries - 1), b * 2 ^ k, maxRetries⟩ := by
  obtain ⟨m, rfl⟩ : ∃ m, maxRetries = m + 1 := ⟨maxRetries - 1, by omega⟩
  rw [fetchWithRetry,
    fetchGo_transient hst m 1 (m + 1) b none 0 (by omega) (by omega), sum_backoff]
  simp only [FetchOut.mk.injEq, Nat.add_sub_cancel, true_and, and_true]
  norm_num

/-- C3 witness: the default configuration (3 retries, 2 s backoff) against a
server that always answers 503. -/
theorem c3_retry_bound_witness :
    ((1 : Nat) ≤ 3 ∧ isTransient 503 = true) ∧
    fetchWithRetry 3 2 (List.replicate 3 (.resp 503 none "" [])) =
      ⟨.ret 503, none, ∑ k ∈ Finset.range 2, (2 : ℚ) * 2 ^ k, 3⟩ := by
  have h := c3_retry_bound 3 2 503 (by norm_num) (by decide)
  exact ⟨⟨by norm_num, by decide⟩, by simpa using h⟩

/-- C4 counterexample: three consecutive 429 responses (the default
`--retries 3`) exhaust the attempt loop; `fetch_with_retry` returns the
sentinel `(-1, {})` — a non-success outcome the walk counts as a failure —
refuting "never fatal, no number of consecutive 429s causes a failure
outcome". -/
theorem c4_rate_limit_counterexample :
    fetchWithRetry 3 2 (List.replicate 3 (.resp 429 none "" [])) =
      ⟨.ret (-1), none, 15, 3⟩ ∧
    FetchRes.ret (-1) ≠ FetchRes.ret 200 ∧
    isFailureEnv (.ret (-1) "" false 0) = true := by
  refine ⟨?_, by decide, by decide⟩
  norm_num [fetchWithRetry, fetchGo, isTransient, List.replicate]

/-- C4 (amended): a 429 response is retried after sleeping the Retry-After
value (default 5 s) and is never itself returned, but each 429 consumes an
attempt slot: `maxRetries` consecutive 429 responses exhaust the loop, which
returns the sentinel status `-1` (no output written, 5 s slept per attempt);
the walk counts such an outcome as a failure, so ten such pages abort the
walk. -/
theorem c4_rate_limit_amended :
    (∀ (maxRetries : Nat) (b : ℚ) (rest : List FetchEvent),
      fetchWithRetry maxRetries b
          (List.replicate maxRetries (.resp 429 none "" []) ++ rest) =
        ⟨.ret (-1), none, 5 * maxRetries, maxRetries⟩) ∧
    (∀ delay : ℚ,
      (walkGo delay
          (List.replicate maxConsecutiveFailures (.ret (-1) "" false 0))
          (initWalk 1)).2 = .failAbort) := by
  constructor
  · intro mr b rest
    rw [fetchWithRetry, fetchGo_rate429 mr 1 mr b none 0 rest (by omega) (by omega)]
    norm_num
  · intro delay
    have h := walkGo_fail_abort
      (List.replicate maxConsecutiveFailures (.ret (-1) "" false 0)) [] delay
      (initWalk 1) (by decide) (by decide) (by decide)
    rw [List.append_nil] at h
    rw [h]

/-- C5 counterexample: a 200 response whose body stream dies after one chunk
on attempt 1, followed by a 404 on attempt 2, returns the not-found outcome
with the partial chunk still sitting at the destination path — refuting "no
partial output for non-success outcomes". -/
theorem c5_partial_output_counterexample :
    fetchWithRetry 2 1 [.okMidErr [255], .resp 404 none "" []] =
      ⟨.ret 404, some [255], 1, 2⟩ ∧
    FetchRes.ret 404 ≠ FetchRes.ret 200 ∧
    some [255] ≠ (none : Option (List Nat)) := by
  refine ⟨?_, by decide, by decide⟩
  norm_num [fetchWithRetry, fetchGo, isTransient]

/-- C5 (amended): the destination is written only by attempts that stream a
200-with-image-extension response: if no attempt does, every outcome leaves
the destination untouched; and whenever the outcome is Success (status 200),
the destination holds a complete body.  (A mid-stream network error can,
however, leave partial bytes behind on a non-success outcome.) -/
theorem c5_no_partial_output_amended :
    (∀ (maxRetries : Nat) (b : ℚ) (evs : List FetchEvent),
      (∀ e ∈ evs, writesTmp e = false) →
      (fetchWithRetry maxRetries b evs).tmp = none) ∧
    (∀ (maxRetries : Nat) (b : ℚ) (evs : List FetchEvent),
      (fetchWithRetry maxRetries b evs).res = .ret 200 →
      ∃ body, (fetchWithRetry maxRetries b evs).tmp = some body) := by
  constructor
  · intro mr b evs h
    exact fetchGo_tmp_invariant evs mr b 1 none 0 h
  · intro mr b evs h
    exact fetchGo_success_writes evs mr b 1 none 0 h

/-- C5 witness: a plain 404 run leaves no output; a successful 200 run leaves
the full body. -/
theorem c5_no_partial_output_witness :
    (∀ e ∈ [FetchEvent.resp 404 none "" []], writesTmp e = false) ∧
    (fetchWithRetry 3 2 [.resp 404 none "" []]).tmp = none ∧
    (fetchWithRetry 3 2 [.resp 200 none ".jpg" [7]]).res = .ret 200 ∧
    ∃ body, (fetchWithRetry 3 2 [.resp 200 none ".jpg" [7]]).tmp = some body := by
  refine ⟨by decide, c5_no_partial_output_amended.1 3 2 _ (by decide), by decide,
    c5_no_partial_output_amended.2 3 2 _ (by decide)⟩

/-- C6: for every page directory and bound, the assembled page sequence is
independent of the completion order of the concurrent per-batch decodes —
any per-batch completion permutation yields the same document as the
in-order schedule — and its page numbers are strictly ascending. -/
theorem c6_assembly_order (fs : Nat → FileState) (num : Nat)
    (sched : List Nat → List Nat)
    (hsched : ∀ b ∈ chunksOf (existingPages fs num), (sched b).Perm b) :
    img2pdfPages fs num sched = img2pdfPages fs num id ∧
    ((img2pdfPages fs num sched).map PdfPage.pageNum).Pairwise (· < ·) := by
  have h1 : img2pdfPages fs num sched = (existingPages fs num).map (loadPage fs) :=
    img2pdfPages_sched fs num sched hsched
  constructor
  · rw [h1, img2pdfPages_id]
  · rw [h1, ← img2pdfPages_id, img2pdfPages_pageNums]
    exact existingPages_sorted fs num

/-- Page directory for the C6 and C10 witnesses: pages 1..3 valid. -/
def fsW : Nat → FileState :=
  fun n => if 1 ≤ n ∧ n ≤ 3 then .valid 5 7 "L" else .absent

/-- C6 witness: decoding each batch in reverse completion order still yields
the ascending in-order document. -/
theorem c6_assembly_order_witness :
    (∀ b ∈ chunksOf (existingPages fsW 4), (List.reverse b).Perm b) ∧
    img2pdfPages fsW 4 List.reverse = img2pdfPages fsW 4 id ∧
    ((img2pdfPages fsW 4 List.reverse).map PdfPage.pageNum).Pairwise
      (· < ·) ∧
    (img2pdfPages fsW 4 id).map PdfPage.pageNum = [1, 2, 3] := by
  have hperm : ∀ b ∈ chunksOf (existingPages fsW 4),
      (List.reverse b).Perm b := by
    intro b _
    exact List.reverse_perm b
  have h := c6_assembly_order fsW 4 List.reverse hperm
  refine ⟨hperm, h.1, h.2, ?_⟩
  rw [img2pdfPages_pageNums]
  decide

/-- C7 counterexample: a mid-walk auth-redirect break and a failure-ceiling
break both fall through to PDF assembly and the process exits 0 — neither is
a non-zero exit, and the exit status does not distinguish them. -/
theorem c7_exit_code_counterexample :
    (mainRun false (1/2) 1 [.ret 302 "text/html" false 0]).exitCode = 0 ∧
    (mainRun false (1/2) 1 [.ret 302 "text/html" false 0]).walk =
      some (⟨1, 1, 0, [], [], 1⟩, .authAbort) ∧
    (mainRun false (1/2) 1 (List.replicate 10 (.ret 500 "" false 0))).exitCode = 0 ∧
    (mainRun false (1/2) 1 (List.replicate 10 (.ret 500 "" false 0))).walk =
      some (⟨10, 1, 10, [], [], 10⟩, .failAbort) := by
  have h := walkGo_fail_abort (List.replicate 10 (PageEnv.ret 500 "" false 0)) []
    (1/2) (initWalk 1) (by decide) (by decide) (by decide)
  rw [List.append_nil] at h
  refine ⟨rfl, ?_, rfl, ?_⟩
  · norm_num [mainRun, walkGo, walkStep, initWalk]
  · simp only [mainRun, Bool.false_eq_true, if_false, h]
    rfl

/-- C7 (amended): the process exit status depends only on the pre-loop
authentication probe — probe failure exits 1, and every loop outcome (normal
finish, auth-redirect break, failure-ceiling break) falls through to
assembly and exits 0, so the two mid-walk abort causes are not distinguished
by exit status. -/
theorem c7_exit_code_amended (probe : Bool) (delay : ℚ) (start : Nat)
    (env : List PageEnv) :
    (mainRun probe delay start env).exitCode = if probe then 1 else 0 := by
  cases probe <;> rfl

/-- C8 counterexample: re-running the walker over a fully-cached range still
performs network requests — the unconditional pre-loop auth probe plus the
fetch of the first page past the cached range — so the request count is 2,
not 0. -/
theorem c8_idempotence_counterexample :
    (mainRun false (1/2) 1 [.cached, .ret 404 "" false 0]).requests = 2 ∧
    (2 : Nat) ≠ 0 ∧
    (mainRun false (1/2) 1 [.cached, .ret 404 "" false 0]).walk =
      some (⟨2, 2, 0, [], [], 1⟩, .finished) := by
  refine ⟨?_, by decide, ?_⟩ <;> norm_num [mainRun, walkGo, walkStep, initWalk]

/-- C8 (amended): re-running over an already-fully-cached range reproduces
the original run's `num_pdf` and performs no network request for any cached
page: the re-run issues exactly one in-loop request (the terminating 404 on
the first uncached page), 2 requests in total with the pre-loop probe. -/
theorem c8_idempotence_amended (k : Nat) (delay j : ℚ) :
    (walkGo delay
        (List.replicate k (.ret 200 "image/jpeg" true j) ++ [.ret 404 "" false 0])
        (initWalk 1)).1.numPdf = k + 1 ∧
    walkGo delay (List.replicate k .cached ++ [.ret 404 "" false 0]) (initWalk 1) =
      (⟨k + 1, k + 1, 0, [], [], 1⟩, .finished) ∧
    (mainRun false delay 1
        (List.replicate k .cached ++ [.ret 404 "" false 0])).requests = 2 := by
  have hcache : walkGo delay (List.replicate k .cached ++ [.ret 404 "" false 0])
      (initWalk 1) = (⟨k + 1, k + 1, 0, [], [], 1⟩, .finished) := by
    by_cases hk : k = 0
    · subst hk
      norm_num [walkGo, walkStep, initWalk]
    · rw [walkGo_cached_block k delay (initWalk 1) _ (by omega), walkGo,
        walkStep_notFound]
      dsimp only [initWalk]
      simp only [Prod.mk.injEq, WalkSt.mk.injEq, and_true, true_and]
      omega
  refine ⟨?_, hcache, ?_⟩
  · by_cases hk : k = 0
    · subst hk
      norm_num [walkGo, walkStep, initWalk]
    · rw [walkGo_success_block k delay j (initWalk 1) _ (by omega), walkGo,
        walkStep_notFound]
      dsimp only [initWalk]
      omega
  · simp only [mainRun, Bool.false_eq_true, if_false, hcache]

/-- C9 counterexample: page 1 is handled as a failure skip (a server error
status reached the walk), yet the recorded sleep trace of the whole run is
empty — the `continue` bypasses the inter-page sleep, refuting "after every
handled page, success or failure-skip, the walker sleeps". -/
theorem c9_jitter_sleep_counterexample :
    walkGo (1/2) [.ret 503 "" false 0, .ret 404 "" false 0] (initWalk 1) =
      (⟨2, 2, 1, [], [], 2⟩, .finished) ∧
    isFailureEnv (.ret 503 "" false 0) = true := by
  refine ⟨?_, by decide⟩
  norm_num [walkGo, walkStep, initWalk, failStep, maxConsecutiveFailures]

/-- C9 (amended): with a nonzero configured delay, the walker records exactly
one sleep per successfully downloaded page — cache hits and failure skips
record none — and every recorded sleep equals the delay times a jitter
factor in [0.5, 1.5). -/
theorem c9_jitter_sleep_amended (delay : ℚ) (start : Nat) (envs : List PageEnv)
    (hd : 0 < delay) (hj : ∀ e ∈ envs, jitterBounded e) :
    (walkGo delay envs (initWalk start)).1.sleeps.length =
      (walkGo delay envs (initWalk start)).1.downloads.length ∧
    ∀ x ∈ (walkGo delay envs (initWalk start)).1.sleeps,
      delay * (1/2) ≤ x ∧ x < delay * (3/2) := by
  constructor
  · have h := walkGo_sleeps_len envs delay (initWalk start) (ne_of_gt hd)
    simpa [initWalk] using h
  · intro x hx
    rcases walkGo_sleeps_mem envs delay (initWalk start) hd hj x hx with hmem | hb
    · simp [initWalk] at hmem
    · exact hb

/-- C9 witness: one successful download then a 404, with jitter draw 0 and
the default 0.5 s delay. -/
theorem c9_jitter_sleep_witness :
    ((0 : ℚ) < 1/2 ∧
      (∀ e ∈ [PageEnv.ret 200 "image/jpeg" true 0, PageEnv.ret 404 "" false 0],
        jitterBounded e)) ∧
    (walkGo (1/2) [PageEnv.ret 200 "image/jpeg" true 0, PageEnv.ret 404 "" false 0]
        (initWalk 1)).1.sleeps.length =
      (walkGo (1/2) [PageEnv.ret 200 "image/jpeg" true 0, PageEnv.ret 404 "" false 0]
        (initWalk 1)).1.downloads.length ∧
    ∀ x ∈ (walkGo (1/2)
        [PageEnv.ret 200 "image/jpeg" true 0, PageEnv.ret 404 "" false 0]
        (initWalk 1)).1.sleeps,
      (1/2 : ℚ) * (1/2) ≤ x ∧ x < (1/2 : ℚ) * (3/2) := by
  have hj : ∀ e ∈ [PageEnv.ret 200 "image/jpeg" true 0, PageEnv.ret 404 "" false 0],
      jitterBounded e := by
    intro e he
    rcases List.mem_cons.mp he with rfl | he2
    · exact ⟨le_refl 0, by norm_num⟩
    · rcases List.mem_singleton.mp he2 with rfl
      exact ⟨le_refl 0, by norm_num⟩
  have h := c9_jitter_sleep_amended (1/2) 1 _ (by norm_num) hj
  exact ⟨⟨by norm_num, hj⟩, h.1, h.2⟩

/-- C10: in `--pdf-only` mode the exclusive upper bound equals one plus the
largest page number among directory files passing the JPEG check; with no
valid cached page the bound is 1 and assembly yields an empty document; and
(provided every valid file was globbed and page numbers start at 1) the
assembled pages are exactly the valid ones. -/
theorem c10_pdf_only_bound (present : List Nat) (fs : Nat → FileState)
    (hcoh : ∀ n, isValidJpeg (fs n) = true → n ∈ present)
    (hpos : ∀ n, isValidJpeg (fs n) = true → 1 ≤ n) :
    (present.filter (fun n => isValidJpeg (fs n)) = [] →
      pdfOnlyNum present fs = 1 ∧ img2pdfPages fs (pdfOnlyNum present fs) id = []) ∧
    (present.filter (fun n => isValidJpeg (fs n)) ≠ [] →
      pdfOnlyNum present fs =
        maxOf (present.filter (fun n => isValidJpeg (fs n))) + 1) ∧
    (∀ n, n ∈ (img2pdfPages fs (pdfOnlyNum present fs) id).map PdfPage.pageNum ↔
      isValidJpeg (fs n) = true) := by
  refine ⟨?_, ?_, ?_⟩
  · intro hemp
    have h1 : pdfOnlyNum present fs = 1 := by
      rw [pdfOnlyNum]
      simp [hemp]
    refine ⟨h1, ?_⟩
    rw [h1, img2pdfPages_id]
    rw [show existingPages fs 1 = [] from rfl]
    rfl
  · intro hne
    rw [pdfOnlyNum]
    simp only [List.isEmpty_iff]
    rw [if_neg hne]
  · intro n
    rw [img2pdfPages_pageNums, existingPages, List.mem_filter, List.mem_range'_1]
    constructor
    · intro h
      exact h.2
    · intro hv
      refine ⟨⟨hpos n hv, ?_⟩, hv⟩
      have hmem : n ∈ present.filter (fun m => isValidJpeg (fs m)) :=
        List.mem_filter.mpr ⟨hcoh n hv, hv⟩
      have hne : present.filter (fun m => isValidJpeg (fs m)) ≠ [] := by
        intro hc
        rw [hc] at hmem
        cases hmem
      have hle := le_maxOf hmem
      rw [pdfOnlyNum]
      simp only [List.isEmpty_iff]
      rw [if_neg hne]
      omega

/-- C10 witness: a directory holding valid pages 1..3 (globbed as
`present = [1, 2, 3]`) gives bound 4 and assembles pages 1..3; an
all-corrupt directory gives bound 1 and an empty document. -/
theorem c10_pdf_only_bound_witness :
    (∀ n, isValidJpeg (fsW n) = true → n ∈ [1, 2, 3]) ∧
    (∀ n, isValidJpeg (fsW n) = true → 1 ≤ n) ∧
    pdfOnlyNum [1, 2, 3] fsW = maxOf ([1, 2, 3].filter
      (fun n => isValidJpeg (fsW n))) + 1 ∧
    (∀ n, n ∈ (img2pdfPages fsW (pdfOnlyNum [1, 2, 3] fsW) id).map
        PdfPage.pageNum ↔ isValidJpeg (fsW n) = true) := by
  have hcoh : ∀ n, isValidJpeg (fsW n) = true → n ∈ [1, 2, 3] := by
    intro n hn
    by_cases h : 1 ≤ n ∧ n ≤ 3
    · obtain ⟨h1, h2⟩ := h
      interval_cases n <;> decide
    · exfalso
      rw [show fsW n = .absent from by rw [fsW]; exact if_neg h] at hn
      cases hn
  have hpos : ∀ n, isValidJpeg (fsW n) = true → 1 ≤ n := by
    intro n hn
    by_cases h : 1 ≤ n ∧ n ≤ 3
    · exact h.1
    · exfalso
      rw [show fsW n = .absent from by rw [fsW]; exact if_neg h] at hn
      cases hn
  have h := c10_pdf_only_bound [1, 2, 3] fsW hcoh hpos
  exact ⟨hcoh, hpos, h.2.1 (by decide), h.2.2⟩

end BookDL
